import Mathlib

/-!
# Protrust — Code Generation & Verification Engine: shallow embedding

This file embeds, in Lean, the core data model and operations of the
Protrust repository (product-code generation, bulk insertion with batch
progress tracking, and the verification state machine), and proves or
refutes the frozen specification claims about them.

Source files embedded:
* netlify/functions/verify-email.js (second handler: code verification)
* netlify/functions/admin-users.js (second handler: create-batch, with
  generateCodes / insertCodes / buildRecords)
* netlify/functions/admin-delete-user.js (second handler: scheduled
  generation cron)
* the background generator generateCodesInBackground / generateCode
* the legacy Mongo verification verifyCode
* backend/workflows/verificationWorkflow.js (executeVerificationWorkflow)
* database/add-unique-constraint.sql (codes_code_unique)
-/

/-- Stored status of a code row.  The netlify store (supabase) uses
the strings "active" (spec: Unused) and "verified" (spec: Used); the
legacy Mongo model additionally uses "flagged". -/
inductive CodeStatus
  | active
  | verified
  | flagged
  deriving DecidableEq, Repr

/-- The result value written to the verifications log and returned to
the caller: "success", "duplicate", "invalid" (spec: NotFound),
the legacy workflow's "flagged" response, and the catch-all "error". -/
inductive Outcome
  | success
  | duplicate
  | invalid
  | flaggedRes
  | errorRes
  deriving DecidableEq, Repr

/-- Lifecycle status of a batch row: "generating" or "complete"
(netlify create-batch / scheduled generation). -/
inductive BatchStatus
  | generating
  | complete
  deriving DecidableEq, Repr

/-! ## Code generator (admin-users.js generateCodes, part_000 generateCode) -/

/-- The fixed ambiguity-reduced alphabet, as written in both
generateCodes (admin-users.js / admin-delete-user.js) and
generateCode (background generator):
"ABCDEFGHJKLMNPQRSTUVWXYZ23456789" (32 symbols). -/
def codeChars : List Char := "ABCDEFGHJKLMNPQRSTUVWXYZ23456789".toList

/-- Byte-to-symbol map of generateCodes in admin-users.js and
admin-delete-user.js: code += chars[bytes[i] % 30]. -/
def mapByteNetlify (b : Nat) : Char := codeChars.getD (b % 30) ' '

/-- Byte-to-symbol map of generateCode in the background generator:
code += chars[bytes[i] % chars.length]. -/
def mapByteBackground (b : Nat) : Char := codeChars.getD (b % codeChars.length) ' '

/-- Assemble a code string from one random byte per position, as the
loops in generateCodes / generateCode do (length 12 in both callers). -/
def codeOfBytes (f : Nat → Char) (bytes : List Nat) : String :=
  String.mk (bytes.map f)

/-! ## Verification: netlify handler (verify-email.js, second handler) -/

/-- A row of the codes table, as inserted by buildRecords:
{ code, batch_id, manufacturer_id, status } (qr_code_url omitted:
no embedded operation reads it). -/
structure CodeRow where
  code : String
  batchId : Nat
  manufacturerId : Nat
  status : CodeStatus
  deriving DecidableEq, Repr

/-- The conditional update of verify-email.js lines 347-355:
update codes set status='verified' where code=? and status='active'.
Takes the status stored at write time and whether the storage call
errored; returns the stored status afterwards and the number of rows
the update affected. -/
def condUpdate (statusAtWrite : CodeStatus) (updErr : Bool) : CodeStatus × Nat :=
  if updErr then (statusAtWrite, 0)
  else if statusAtWrite = CodeStatus.active then (CodeStatus.verified, 1)
  else (statusAtWrite, 0)

/-- What one call of the netlify verification handler produces:
HTTP status, the outcome in the response body, the result value of the
row appended to the verifications log, and the stored status of the
code after the call (none when the code was not found). -/
structure VerifyResult where
  httpStatus : Nat
  outcome : Outcome
  logged : Outcome
  storedAfter : Option CodeStatus
  deriving DecidableEq, Repr

/-- The code-verification handler of verify-email.js (lines 202-421),
after input validation, as a function of the lookup result (line 238),
the stored status at the moment the conditional update runs (which can
differ from the read under concurrency), and whether the update call
returned an error (line 357).  Faithful branch structure:
* lookup failed / no row: outcome "invalid", logged, HTTP 200;
* row status read as "verified": outcome "duplicate", logged, no write;
* otherwise: issue the conditional update, ignore its error and its
  affected-row count, log "success" and return "success". -/
def verifyEmailHandler (lookup : Option CodeRow) (statusAtWrite : CodeStatus)
    (updErr : Bool) : VerifyResult :=
  match lookup with
  | none =>
      { httpStatus := 200, outcome := Outcome.invalid,
        logged := Outcome.invalid, storedAfter := none }
  | some r =>
      if r.status = CodeStatus.verified then
        { httpStatus := 200, outcome := Outcome.duplicate,
          logged := Outcome.duplicate, storedAfter := some statusAtWrite }
      else
        { httpStatus := 200, outcome := Outcome.success,
          logged := Outcome.success,
          storedAfter := some (condUpdate statusAtWrite updErr).1 }

/-! ## Verification: legacy Mongo verifyCode -/

/-- The fields of the legacy Mongo Code document that verifyCode reads
or writes. -/
structure LegacyCode where
  status : CodeStatus
  verificationCount : Nat
  verifiedAt : Option Nat
  lastVerificationAttempt : Option Nat
  verificationMethod : Option String
  deriving DecidableEq, Repr

/-- The record update and outcome of the legacy verifyCode (steps 4-6):
* status "verified": findByIdAndUpdate sets verificationCount+1,
  lastVerificationAttempt, status "flagged"; outcome "duplicate";
* status "flagged": no update; outcome "duplicate";
* status "active": findByIdAndUpdate sets status "verified",
  verifiedAt, verificationMethod, verificationCount 1,
  lastVerificationAttempt; outcome "success". -/
def verifyCodeStep (r : LegacyCode) (now : Nat) (method : String) :
    LegacyCode × Outcome :=
  if r.status = CodeStatus.verified then
    ({ r with
        status := CodeStatus.flagged
        verificationCount := r.verificationCount + 1
        lastVerificationAttempt := some now }, Outcome.duplicate)
  else if r.status = CodeStatus.flagged then
    (r, Outcome.duplicate)
  else
    ({ r with
        status := CodeStatus.verified
        verifiedAt := some now
        verificationMethod := some method
        verificationCount := 1
        lastVerificationAttempt := some now }, Outcome.success)

/-! ## Verification: backend workflow (verificationWorkflow.js) -/

/-- Outcome of executeVerificationWorkflow as a function of the lookup
result and the stored status at the time markCodeAsVerified runs.
checkCodeStatus classifies the read; when it says "success"
(read "active"), markCodeAsVerified runs findOneAndUpdate guarded by
status "active" and, when that matched no row, the workflow
reclassifies the attempt as "duplicate" (lines 169-183). -/
def workflowVerify (lookup : Option CodeStatus) (statusAtWrite : CodeStatus) :
    Outcome :=
  match lookup with
  | none => Outcome.invalid
  | some CodeStatus.verified => Outcome.duplicate
  | some CodeStatus.flagged => Outcome.flaggedRes
  | some CodeStatus.active =>
      if (condUpdate statusAtWrite false).2 = 0 then Outcome.duplicate
      else Outcome.success


/-! ## Concurrent verification machine (verify-email.js under interleaving)

Each inbound verification call touches the shared codes row twice:
once at the lookup (line 238) and once at the conditional update
(lines 347-355); everything else (geolocation, the verifications-log
append, the response) involves no shared mutable state.  A call is
therefore modelled as two atomic events: a read event recording what
the lookup saw, and a write/respond event that performs the
conditional update (skipped on the duplicate path) and fixes the
outcome, which the handler also logs verbatim. -/

/-- Progress of one in-flight verification call. -/
inductive Phase
  | ready
  | readDone
  | finished
  deriving DecidableEq, Repr

/-- Local state of one verification call: its progress, whether its
lookup saw status "verified" (line 296), whether its conditional
update affected a row, and its final outcome (= the logged result). -/
structure Call where
  phase : Phase
  sawVerified : Bool
  won : Bool
  outcome : Option Outcome
  deriving DecidableEq, Repr

/-- Shared plus per-call state: the stored status of the one code
under scrutiny, and the list of in-flight calls. -/
structure ConcState where
  stored : CodeStatus
  calls : List Call
  deriving DecidableEq, Repr

/-- One event of one call against the stored status, mirroring
verify-email.js: the read records whether the row was "verified";
the second event either responds "duplicate" (no write, lines
296-339) or runs the conditional update and responds "success"
regardless of how many rows it affected (lines 342-404). -/
def stepCall (st : CodeStatus) (c : Call) : CodeStatus × Call :=
  match c.phase with
  | Phase.ready =>
      (st, { c with phase := Phase.readDone, sawVerified := st = CodeStatus.verified })
  | Phase.readDone =>
      if c.sawVerified then
        (st, { c with phase := Phase.finished, outcome := some Outcome.duplicate })
      else
        let u := condUpdate st false
        (u.1, { c with
            phase := Phase.finished
            won := u.2 = 1
            outcome := some Outcome.success })
  | Phase.finished => (st, c)

/-- Let call i take its next event (no-op on an absent index or a
finished call). -/
def sysStep (s : ConcState) (i : Nat) : ConcState :=
  if h : i < s.calls.length then
    let p := stepCall s.stored (s.calls.get ⟨i, h⟩)
    { stored := p.1, calls := s.calls.set i p.2 }
  else s

/-- Run a schedule: a list of call indices, each occurrence letting
that call take its next event. -/
def runSched (s : ConcState) (sched : List Nat) : ConcState :=
  sched.foldl sysStep s

/-- N concurrent calls against one code whose stored status is
"active" (spec: Unused), none started yet. -/
def initConc (n : Nat) : ConcState :=
  { stored := CodeStatus.active,
    calls := List.replicate n
      { phase := Phase.ready, sawVerified := false, won := false, outcome := none } }

/-- The outcome the backend workflow executeVerificationWorkflow would
return for the same two events: "success" only when the call own
conditional update affected a row, else "duplicate" (lines 169-183 of
verificationWorkflow.js). -/
def wfOutcome (c : Call) : Outcome :=
  if c.sawVerified then Outcome.duplicate
  else if c.won then Outcome.success
  else Outcome.duplicate

/-! ## Codes table under the storage uniqueness constraint (C4) -/

/-- The codes table. -/
structure CodesTable where
  rows : List CodeRow
  deriving DecidableEq, Repr

/-- All code values in the table are pairwise distinct. -/
def distinctValues (t : CodesTable) : Prop :=
  (t.rows.map CodeRow.code).Nodup

instance (t : CodesTable) : Decidable (distinctValues t) := by
  unfold distinctValues; infer_instance

/-- One chunked INSERT into codes under the storage-layer constraint
codes_code_unique (database/add-unique-constraint.sql lines 16-18):
the statement succeeds only if no inserted value collides with an
existing row or with another row of the same statement; otherwise the
whole statement is rejected and the table is unchanged (the error the
callers log and skip). -/
def insertChunk (t : CodesTable) (chunk : List CodeRow) : CodesTable × Bool :=
  if (chunk.map CodeRow.code).Nodup ∧
      ∀ r ∈ chunk, r.code ∉ t.rows.map CodeRow.code then
    ({ rows := t.rows ++ chunk }, true)
  else
    (t, false)

/-- The conditional update of a verification call against the table:
set status "verified" on rows whose code matches and whose status is
still "active" (verify-email.js lines 347-355); code values are never
changed. -/
def verifyMark (t : CodesTable) (c : String) : CodesTable :=
  { rows := t.rows.map fun r =>
      if r.code = c ∧ r.status = CodeStatus.active then
        { r with status := CodeStatus.verified }
      else r }

/-- The operations that ever touch the codes table: chunked inserts
(batch creation, background generation, scheduler runs) and
verification updates. -/
inductive DbOp
  | insertOp (chunk : List CodeRow)
  | verifyOp (c : String)

/-- Apply one operation. -/
def applyOp (t : CodesTable) : DbOp → CodesTable
  | DbOp.insertOp chunk => (insertChunk t chunk).1
  | DbOp.verifyOp c => verifyMark t c

/-- Apply a sequence of operations. -/
def runOps (t : CodesTable) (ops : List DbOp) : CodesTable :=
  ops.foldl applyOp t

/-! ## Bulk insertion and batch progress (admin-users.js,
admin-delete-user.js, background generator) -/

/-- CHUNK_SIZE = 1000 (admin-users.js line 124, admin-delete-user.js
line 121). -/
def CHUNK_SIZE : Nat := 1000

/-- SYNC_LIMIT = 10000: codes generated synchronously at batch
creation (admin-users.js line 123). -/
def SYNC_LIMIT : Nat := 10000

/-- CODES_PER_RUN = 10000: codes generated per scheduler run
(admin-delete-user.js line 123). -/
def CODES_PER_RUN : Nat := 10000

/-- Sizes of the slices records.slice(i, i + CHUNK_SIZE) that
insertCodes cuts n records into. -/
def chunkSizes (n : Nat) : List Nat :=
  if n = 0 then [] else min n CHUNK_SIZE :: chunkSizes (n - CHUNK_SIZE)
decreasing_by
  have hc : 0 < CHUNK_SIZE := by decide
  omega

/-- The inserted counter of insertCodes: each chunk whose supabase
insert returned no error contributes its length; failed chunks are
only logged.  The ok list says which chunk writes succeeded. -/
def insertedCount (sizes : List Nat) (ok : List Bool) : Nat :=
  match sizes, ok with
  | [], _ => 0
  | _, [] => 0
  | sz :: sizes, b :: ok =>
      (if b then sz else 0) + insertedCount sizes ok

/-- Persisted batch row fields the generation core touches:
quantity (requested), codes_generated, status. -/
structure Batch where
  quantity : Nat
  codesGenerated : Nat
  status : BatchStatus
  deriving DecidableEq, Repr

/-- The create-batch invocation of admin-users.js (lines 250-269),
after validation and the initial row insert, as one atomic operation:
generate min(qty, SYNC_LIMIT) codes, insert them chunkwise (ok says
which chunk writes succeeded), then update codes_generated to the
inserted count and status to complete iff inserted >= qty. -/
def createBatchSync (qty : Nat) (ok : List Bool) : Batch :=
  let inserted := insertedCount (chunkSizes (min qty SYNC_LIMIT)) ok
  { quantity := qty
    codesGenerated := inserted
    status := if qty ≤ inserted then BatchStatus.complete else BatchStatus.generating }

/-- One scheduler pass over one batch (admin-delete-user.js lines
175-250) together with the number of codes it inserted: batches are
selected only when status is "generating" (line 178) and
codes_generated < quantity (line 199); for a selected batch it
generates min(CODES_PER_RUN, remaining) codes, inserts them chunkwise,
and updates codes_generated to the old count plus the inserted count,
with status complete iff the new total reaches quantity (lines
217-239). -/
def schedulerTickCount (b : Batch) (ok : List Bool) : Batch × Nat :=
  if b.status = BatchStatus.generating ∧ b.codesGenerated < b.quantity then
    let toGenerate := min CODES_PER_RUN (b.quantity - b.codesGenerated)
    let inserted := insertedCount (chunkSizes toGenerate) ok
    let newTotal := b.codesGenerated + inserted
    ({ quantity := b.quantity
       codesGenerated := newTotal
       status := if b.quantity ≤ newTotal then BatchStatus.complete
         else BatchStatus.generating }, inserted)
  else (b, 0)

/-- The batch state after one scheduler pass. -/
def schedulerTick (b : Batch) (ok : List Bool) : Batch :=
  (schedulerTickCount b ok).1

/-- Iterated scheduler passes. -/
def runTicks (b : Batch) (oks : List (List Bool)) : Batch :=
  oks.foldl schedulerTick b

/-- Total number of codes the iterated scheduler passes inserted. -/
def ticksInserted : Batch → List (List Bool) → Nat
  | _, [] => 0
  | b, ok :: rest =>
      (schedulerTickCount b ok).2 + ticksInserted (schedulerTick b ok) rest

/-- Batch states reachable through create-batch (validated quantity
1..100000) followed by any number of scheduler passes. -/
inductive ReachableBatch : Batch → Prop
  | created (qty : Nat) (ok : List Bool) (h1 : 1 ≤ qty) (h2 : qty ≤ 100000) :
      ReachableBatch (createBatchSync qty ok)
  | ticked (b : Batch) (ok : List Bool) (h : ReachableBatch b) :
      ReachableBatch (schedulerTick b ok)

/-! ## Durability of progress during insertion (C6) -/

/-- In-memory and persisted progress while the background generator
(generateCodesInBackground) inserts sub-chunks: on each successful
sub-chunk insert it adds the chunk length to totalGenerated and then
updates batches.codes_generated to totalGenerated before moving on
(lines 95-115); on a failed insert it only logs. -/
structure GenState where
  totalGenerated : Nat
  persisted : Nat
  deriving DecidableEq, Repr

/-- One sub-chunk event of the background generator. -/
def bgChunkStep (s : GenState) (chunk : Nat × Bool) : GenState :=
  if chunk.2 then
    { totalGenerated := s.totalGenerated + chunk.1
      persisted := s.totalGenerated + chunk.1 }
  else s

/-- Run the background generator over a list of (chunk size, write
succeeded) events. -/
def bgRun (s : GenState) (chunks : List (Nat × Bool)) : GenState :=
  chunks.foldl bgChunkStep s

/-- In-memory and persisted progress while the netlify insertCodes
runs (admin-users.js lines 142-158, admin-delete-user.js lines
139-155): the inserted counter lives in memory; batches.codes_generated
is written only by the caller, once, after insertCodes returns. -/
structure InsState where
  insertedMem : Nat
  persisted : Nat
  deriving DecidableEq, Repr

/-- One chunk event inside insertCodes: a successful write bumps only
the in-memory counter; the persisted count is untouched. -/
def insChunkStep (s : InsState) (chunk : Nat × Bool) : InsState :=
  if chunk.2 then { s with insertedMem := s.insertedMem + chunk.1 }
  else s

/-- Run insertCodes over a list of (chunk size, write succeeded)
events. -/
def insRun (s : InsState) (chunks : List (Nat × Bool)) : InsState :=
  chunks.foldl insChunkStep s

/-- The single progress update the callers of insertCodes perform
afterwards (admin-users.js lines 263-266, admin-delete-user.js lines
233-239, count part). -/
def insFinalize (s : InsState) : InsState :=
  { s with persisted := s.insertedMem }

/-- Sum of the sizes of the successfully written chunks. -/
def okSum (chunks : List (Nat × Bool)) : Nat :=
  match chunks with
  | [] => 0
  | c :: rest => (if c.2 then c.1 else 0) + okSum rest

/-- Inductive invariant of the concurrent verification machine (proof
device): the stored status is "active" or "verified"; while it is
still "active" no call has finished, seen "verified", or won; once it
is "verified" exactly one call has won; a winning call is finished,
read "active", and responded Success; a finished call's outcome (and
logged result) is Duplicate exactly when its read saw "verified";
unfinished calls have not won and have no outcome yet. -/
def ConcInv (s : ConcState) : Prop :=
  (s.stored = CodeStatus.active ∨ s.stored = CodeStatus.verified) ∧
  (s.stored = CodeStatus.active →
    ∀ j : Fin s.calls.length,
      (s.calls.get j).phase ≠ Phase.finished ∧
      (s.calls.get j).sawVerified = false ∧
      (s.calls.get j).won = false) ∧
  (s.stored = CodeStatus.verified →
    ∃ j : Fin s.calls.length, (s.calls.get j).won = true ∧
      ∀ k : Fin s.calls.length, (s.calls.get k).won = true → k.1 = j.1) ∧
  (∀ j : Fin s.calls.length, (s.calls.get j).won = true →
      (s.calls.get j).phase = Phase.finished ∧ (s.calls.get j).sawVerified = false) ∧
  (∀ j : Fin s.calls.length, (s.calls.get j).phase = Phase.finished →
      (s.calls.get j).outcome =
        some (if (s.calls.get j).sawVerified then Outcome.duplicate else Outcome.success)) ∧
  (∀ j : Fin s.calls.length, (s.calls.get j).phase ≠ Phase.finished →
      (s.calls.get j).won = false ∧ (s.calls.get j).outcome = none)

/-! ## Create-batch response (admin-users.js handler, C10) -/

/-- The parts of the create-batch HTTP response the claims are about. -/
structure CreateResponse where
  httpStatus : Nat
  success : Bool
  codesGenerated : Nat
  batchStatus : BatchStatus
  deriving DecidableEq, Repr

/-- The create-batch handler of admin-users.js (lines 196-307) on the
path where authentication, field validation and the batch row insert
succeeded, as a function of the validated quantity and of which chunk
writes succeeded: quantity outside 1..100000 is rejected with 400
(line 207); otherwise the handler always respond(201, ...) carrying
codes_generated = inserted and status complete/generating (lines
272-301) — chunk-insert errors are only logged inside insertCodes. -/
def createBatchHandler (qty : Nat) (ok : List Bool) : Except Nat CreateResponse :=
  if qty < 1 ∨ 100000 < qty then Except.error 400
  else
    let b := createBatchSync qty ok
    Except.ok
      { httpStatus := 201
        success := true
        codesGenerated := b.codesGenerated
        batchStatus := b.status }

/-! ## Helper lemmas -/

theorem insertedCount_all_false (sizes : List Nat) (ok : List Bool)
    (h : ∀ b ∈ ok, b = false) : insertedCount sizes ok = 0 := by
  induction sizes generalizing ok with
  | nil => cases ok <;> rfl
  | cons sz rest ih =>
    cases ok with
    | nil => rfl
    | cons b obs =>
      have hb : b = false := h b (by simp)
      have hrest : ∀ x ∈ obs, x = false := fun x hx => h x (by simp [hx])
      simp [insertedCount, hb, ih obs hrest]

theorem insertedCount_le (sizes : List Nat) (ok : List Bool) :
    insertedCount sizes ok ≤ sizes.sum := by
  induction sizes generalizing ok with
  | nil => simp [insertedCount]
  | cons sz rest ih =>
    cases ok with
    | nil => simp [insertedCount]
    | cons b obs =>
      have := ih obs
      cases b <;> simp [insertedCount] <;> omega

theorem sum_chunkSizes (n : Nat) : (chunkSizes n).sum = n := by
  induction n using Nat.strong_induction_on with
  | _ n ih =>
    rw [chunkSizes]
    by_cases h0 : n = 0
    · simp [h0]
    · have hc : 0 < CHUNK_SIZE := by decide
      have hlt : n - CHUNK_SIZE < n := by omega
      simp only [h0, if_false, List.sum_cons, ih _ hlt]
      unfold CHUNK_SIZE at *
      omega

theorem insChunkStep_persisted (s : InsState) (c : Nat × Bool) :
    (insChunkStep s c).persisted = s.persisted := by
  unfold insChunkStep; split <;> rfl

theorem insRun_persisted (s : InsState) (chunks : List (Nat × Bool)) :
    (insRun s chunks).persisted = s.persisted := by
  induction chunks generalizing s with
  | nil => rfl
  | cons c rest ih =>
    show (insRun (insChunkStep s c) rest).persisted = s.persisted
    rw [ih, insChunkStep_persisted]

theorem okSum_cons (c : Nat × Bool) (rest : List (Nat × Bool)) :
    okSum (c :: rest) = (if c.2 then c.1 else 0) + okSum rest := rfl

theorem insRun_insertedMem (s : InsState) (chunks : List (Nat × Bool)) :
    (insRun s chunks).insertedMem = s.insertedMem + okSum chunks := by
  induction chunks generalizing s with
  | nil => simp [insRun, okSum]
  | cons c rest ih =>
    show (insRun (insChunkStep s c) rest).insertedMem = _
    rw [ih, okSum_cons]
    unfold insChunkStep
    split <;> simp +arith

theorem bgRun_eq (chunks : List (Nat × Bool)) (t : Nat) :
    bgRun { totalGenerated := t, persisted := t } chunks =
      { totalGenerated := t + okSum chunks, persisted := t + okSum chunks } := by
  induction chunks generalizing t with
  | nil => simp [bgRun, okSum]
  | cons c rest ih =>
    show bgRun (bgChunkStep _ c) rest = _
    rw [okSum_cons]
    unfold bgChunkStep
    split
    · rw [ih (t + c.1)]
      simp only [GenState.mk.injEq]
      omega
    · simp_all [ih t]

/-! ## Claim theorems -/

/-- Claim C1, counterexample.  The claim states that when the lookup
read the code as Unused but the conditional update affects zero rows,
the outcome is Duplicate and only a one-row update yields Success.  At
the concrete input below the lookup read "active", the stored status
at write time is already "verified" (a lost race), the conditional
update affects zero rows — yet the handler's outcome is Success, not
Duplicate. -/
theorem C1_counterexample :
    (condUpdate CodeStatus.verified false).2 = 0 ∧
    (verifyEmailHandler (some ⟨"SAMPLECODE12", 1, 1, CodeStatus.active⟩)
        CodeStatus.verified false).outcome = Outcome.success ∧
    ¬ (verifyEmailHandler (some ⟨"SAMPLECODE12", 1, 1, CodeStatus.active⟩)
        CodeStatus.verified false).outcome = Outcome.duplicate := by
  decide

/-- Claim C1, amended.  The netlify handler never inspects the
affected-row count: whenever the lookup read the code as not yet
verified, the outcome is Success regardless of whether the conditional
update affected zero or one rows; the update only protects the stored
state (a stored "verified" status is never overwritten).  The backend
workflow executeVerificationWorkflow, by contrast, does reclassify:
it returns Duplicate when its conditional update affects zero rows and
Success only when it affects one row. -/
theorem C1_amended (r : CodeRow) (sw : CodeStatus) (e : Bool)
    (hr : r.status ≠ CodeStatus.verified) :
    (verifyEmailHandler (some r) sw e).outcome = Outcome.success ∧
    (sw = CodeStatus.verified →
      (verifyEmailHandler (some r) sw e).storedAfter = some CodeStatus.verified) ∧
    ((condUpdate sw false).2 = 0 →
      workflowVerify (some CodeStatus.active) sw = Outcome.duplicate) ∧
    ((condUpdate sw false).2 = 1 →
      workflowVerify (some CodeStatus.active) sw = Outcome.success) := by
  refine ⟨?_, ?_, ?_, ?_⟩
  · simp [verifyEmailHandler, hr]
  · intro hsw
    subst hsw
    simp [verifyEmailHandler, hr, condUpdate]
  · intro h
    simp [workflowVerify, h]
  · intro h
    simp [workflowVerify, h]

/-- Claim C1, witness for the amended theorem at a concrete input. -/
theorem C1_amended_witness :
    ((⟨"SAMPLECODE12", 1, 1, CodeStatus.active⟩ : CodeRow).status ≠ CodeStatus.verified) ∧
    ((verifyEmailHandler (some ⟨"SAMPLECODE12", 1, 1, CodeStatus.active⟩)
        CodeStatus.verified false).outcome = Outcome.success ∧
      (CodeStatus.verified = CodeStatus.verified →
        (verifyEmailHandler (some ⟨"SAMPLECODE12", 1, 1, CodeStatus.active⟩)
            CodeStatus.verified false).storedAfter = some CodeStatus.verified) ∧
      ((condUpdate CodeStatus.verified false).2 = 0 →
        workflowVerify (some CodeStatus.active) CodeStatus.verified = Outcome.duplicate) ∧
      ((condUpdate CodeStatus.verified false).2 = 1 →
        workflowVerify (some CodeStatus.active) CodeStatus.verified = Outcome.success)) :=
  ⟨by decide, C1_amended ⟨"SAMPLECODE12", 1, 1, CodeStatus.active⟩ CodeStatus.verified false
      (by decide)⟩

/-- Claim C9: when the conditional update returns a storage error, the
netlify handler neither propagates it (HTTP stays 200) nor changes its
behaviour: it still logs a success attempt and returns the Success
outcome, while the stored status is left exactly as it was — so a
Success response does not guarantee the code became Used. -/
theorem C9_update_error_still_success (r : CodeRow) (sw : CodeStatus)
    (hr : r.status = CodeStatus.active) :
    (verifyEmailHandler (some r) sw true).httpStatus = 200 ∧
    (verifyEmailHandler (some r) sw true).outcome = Outcome.success ∧
    (verifyEmailHandler (some r) sw true).logged = Outcome.success ∧
    (verifyEmailHandler (some r) sw true).storedAfter = some sw := by
  have hr2 : r.status ≠ CodeStatus.verified := by rw [hr]; decide
  refine ⟨?_, ?_, ?_, ?_⟩ <;> simp [verifyEmailHandler, hr2, condUpdate]

/-- Claim C9, witness: with the stored status still "active" at write
time, the errored update leaves it "active" while the caller is told
Success. -/
theorem C9_witness :
    ((⟨"SAMPLECODE12", 1, 1, CodeStatus.active⟩ : CodeRow).status = CodeStatus.active) ∧
    ((verifyEmailHandler (some ⟨"SAMPLECODE12", 1, 1, CodeStatus.active⟩)
        CodeStatus.active true).httpStatus = 200 ∧
      (verifyEmailHandler (some ⟨"SAMPLECODE12", 1, 1, CodeStatus.active⟩)
        CodeStatus.active true).outcome = Outcome.success ∧
      (verifyEmailHandler (some ⟨"SAMPLECODE12", 1, 1, CodeStatus.active⟩)
        CodeStatus.active true).logged = Outcome.success ∧
      (verifyEmailHandler (some ⟨"SAMPLECODE12", 1, 1, CodeStatus.active⟩)
        CodeStatus.active true).storedAfter = some CodeStatus.active) :=
  ⟨by decide, C9_update_error_still_success ⟨"SAMPLECODE12", 1, 1, CodeStatus.active⟩
      CodeStatus.active (by decide)⟩

/-- Claim C3, counterexample.  The claim states a code row is mutated
exactly once (Unused to Used) and never again once Used.  In the
legacy verifyCode, a duplicate scan of an already-verified code
mutates the row again: status becomes "flagged" and verificationCount
is incremented. -/
theorem C3_counterexample :
    (verifyCodeStep ⟨CodeStatus.verified, 3, some 10, some 10, some "qr"⟩ 20 "qr").1 ≠
      ⟨CodeStatus.verified, 3, some 10, some 10, some "qr"⟩ ∧
    (verifyCodeStep ⟨CodeStatus.verified, 3, some 10, some 10, some "qr"⟩ 20 "qr").1.status =
      CodeStatus.flagged ∧
    (verifyCodeStep ⟨CodeStatus.verified, 3, some 10, some 10, some "qr"⟩ 20 "qr").1.verificationCount = 4 := by
  decide

/-- Claim C3, amended.  No code is ever re-armed: neither the netlify
conditional update nor the legacy verifyCode ever moves a status back
to "active", and the netlify update never touches a row whose stored
status is already "verified".  But Used is not terminal in the legacy
path: verifyCode mutates an already-verified code on a duplicate scan,
setting its status to "flagged" and incrementing verificationCount. -/
theorem C3_amended (r : LegacyCode) (now : Nat) (m : String)
    (sw : CodeStatus) (e : Bool) :
    (condUpdate CodeStatus.verified e = (CodeStatus.verified, 0)) ∧
    ((condUpdate sw e).1 = CodeStatus.active → sw = CodeStatus.active) ∧
    (r.status ≠ CodeStatus.active → (verifyCodeStep r now m).1.status ≠ CodeStatus.active) ∧
    (r.status = CodeStatus.verified →
      (verifyCodeStep r now m).1.status = CodeStatus.flagged ∧
      (verifyCodeStep r now m).1.verificationCount = r.verificationCount + 1) := by
  refine ⟨?_, ?_, ?_, ?_⟩
  · cases e <;> rfl
  · cases sw <;> cases e <;> decide
  · intro h
    cases hs : r.status <;> simp [verifyCodeStep, hs] at h ⊢
  · intro h
    simp [verifyCodeStep, h]

/-- Claim C3, witness for the amended theorem at a concrete row. -/
theorem C3_amended_witness :
    ((⟨CodeStatus.verified, 0, none, none, none⟩ : LegacyCode).status = CodeStatus.verified) ∧
    ((verifyCodeStep ⟨CodeStatus.verified, 0, none, none, none⟩ 7 "qr").1.status =
        CodeStatus.flagged ∧
      (verifyCodeStep ⟨CodeStatus.verified, 0, none, none, none⟩ 7 "qr").1.verificationCount =
        0 + 1) :=
  ⟨by decide,
    (C3_amended ⟨CodeStatus.verified, 0, none, none, none⟩ 7 "qr" CodeStatus.active
        false).2.2.2 (by decide)⟩

set_option maxRecDepth 4096 in
/-- Claim C5, counterexample.  The claim states every one of the 32
alphabet symbols has some byte value mapping to it.  The digit '9' is
an alphabet symbol, yet in generateCodes (admin-users.js and
admin-delete-user.js) no byte value maps to it, because each byte is
reduced mod 30 over the 32-symbol alphabet. -/
theorem C5_counterexample :
    codeChars.length = 32 ∧ '9' ∈ codeChars ∧
    ∀ b, b < 256 → mapByteNetlify b ≠ '9' := by
  decide

set_option maxRecDepth 4096 in
/-- Claim C5, amended.  Generated codes are fixed-length strings over
the 32-symbol ambiguity-reduced alphabet, one symbol per random byte
(length 12 at both call sites).  In the background generator's
generateCode, bytes are reduced mod the alphabet length (32), and
every one of the 32 symbols has byte values mapping to it.  In
generateCodes (admin-users.js / admin-delete-user.js), bytes are
reduced mod 30, so only the first 30 symbols can ever appear: '8' and
'9' never occur in codes produced there. -/
theorem C5_amended (bytes : List Nat) (c : Char) (hc : c ∈ codeChars) :
    (codeOfBytes mapByteNetlify bytes).length = bytes.length ∧
    (codeOfBytes mapByteBackground bytes).length = bytes.length ∧
    (∃ b, b < 256 ∧ mapByteBackground b = c) ∧
    (∀ b : Nat, mapByteNetlify b ∈ codeChars.take 30) ∧
    (∀ b : Nat, mapByteNetlify b ≠ '8' ∧ mapByteNetlify b ≠ '9') := by
  refine ⟨?_, ?_, ?_, ?_, ?_⟩
  · simp [codeOfBytes, String.length]
  · simp [codeOfBytes, String.length]
  · revert hc
    revert c
    decide
  · intro b
    have hlt : b % 30 < 30 := Nat.mod_lt _ (by decide)
    have key : ∀ k, k < 30 → codeChars.getD k ' ' ∈ codeChars.take 30 := by decide
    exact key _ hlt
  · intro b
    have hlt : b % 30 < 30 := Nat.mod_lt _ (by decide)
    have key : ∀ k, k < 30 → codeChars.getD k ' ' ≠ '8' ∧ codeChars.getD k ' ' ≠ '9' := by
      decide
    exact key _ hlt

/-- Claim C5, witness for the amended theorem: a 12-byte draw and the
symbol 'A'. -/
theorem C5_amended_witness :
    ('A' ∈ codeChars) ∧
    ((codeOfBytes mapByteNetlify [0, 31, 64, 99, 128, 160, 200, 255, 7, 13, 77, 211]).length =
        [0, 31, 64, 99, 128, 160, 200, 255, 7, 13, 77, 211].length ∧
      (codeOfBytes mapByteBackground [0, 31, 64, 99, 128, 160, 200, 255, 7, 13, 77, 211]).length =
        [0, 31, 64, 99, 128, 160, 200, 255, 7, 13, 77, 211].length ∧
      (∃ b, b < 256 ∧ mapByteBackground b = 'A') ∧
      (∀ b : Nat, mapByteNetlify b ∈ codeChars.take 30) ∧
      (∀ b : Nat, mapByteNetlify b ≠ '8' ∧ mapByteNetlify b ≠ '9')) :=
  ⟨by decide, C5_amended [0, 31, 64, 99, 128, 160, 200, 255, 7, 13, 77, 211] 'A' (by decide)⟩

/-- Claim C6, counterexample.  The claim states the persisted
codes_generated is incremented by each successful chunk write before
the next chunk is attempted.  In the netlify insertCodes
(admin-users.js create-batch, admin-delete-user.js scheduler) the
persisted count is written only once, by the caller, after insertCodes
returns: after a successful 1000-row chunk write the persisted count
is still 0, not 1000. -/
theorem C6_counterexample :
    (insRun { insertedMem := 0, persisted := 0 } [(1000, true)]).persisted = 0 ∧
    okSum [(1000, true)] = 1000 ∧ (0 : Nat) ≠ 1000 := by
  decide

/-- Claim C6, amended.  In the background generator
generateCodesInBackground the claim holds: after any sequence of
sub-chunk write attempts the persisted codes_generated equals the
total size of the successfully written sub-chunks (so it is updated
after every successful chunk write, before the next one).  In the
create-batch and scheduler paths, however, insertCodes leaves the
persisted count untouched while accumulating the inserted total in
memory, and the single later update sets the persisted count to that
total — an interruption during insertCodes loses the whole
invocation's progress. -/
theorem C6_amended (chunks : List (Nat × Bool)) (s : InsState) :
    (bgRun { totalGenerated := 0, persisted := 0 } chunks).persisted = okSum chunks ∧
    (insRun s chunks).persisted = s.persisted ∧
    (insRun s chunks).insertedMem = s.insertedMem + okSum chunks ∧
    (insFinalize (insRun s chunks)).persisted = s.insertedMem + okSum chunks := by
  refine ⟨?_, insRun_persisted s chunks, insRun_insertedMem s chunks, ?_⟩
  · rw [bgRun_eq chunks 0]
    simp
  · show (insRun s chunks).insertedMem = _
    exact insRun_insertedMem s chunks

/-- Claim C10: past validation, the create-batch handler returns HTTP
201 with success regardless of which chunk inserts failed; when every
chunk insert fails it still reports the created batch with
codes_generated 0 and status "generating".  Insert failure during
synchronous generation is never surfaced as an error response. -/
theorem C10_insert_failure_not_surfaced (qty : Nat) (ok : List Bool)
    (h1 : 1 ≤ qty) (h2 : qty ≤ 100000) :
    (∃ resp, createBatchHandler qty ok = Except.ok resp ∧
      resp.httpStatus = 201 ∧ resp.success = true ∧
      resp.codesGenerated = (createBatchSync qty ok).codesGenerated) ∧
    ((∀ b ∈ ok, b = false) →
      createBatchHandler qty ok = Except.ok
        { httpStatus := 201, success := true, codesGenerated := 0,
          batchStatus := BatchStatus.generating }) := by
  have hv : ¬ (qty < 1 ∨ 100000 < qty) := by omega
  constructor
  · unfold createBatchHandler
    rw [if_neg hv]
    exact ⟨_, rfl, rfl, rfl, rfl⟩
  · intro hall
    have hz : insertedCount (chunkSizes (min qty SYNC_LIMIT)) ok = 0 :=
      insertedCount_all_false _ _ hall
    unfold createBatchHandler
    rw [if_neg hv]
    unfold createBatchSync
    rw [hz]
    have : ¬ qty ≤ 0 := by omega
    simp [this]

/-- Claim C10, witness: a batch of 5 whose only chunk insert fails is
still answered with 201, zero codes, status "generating". -/
theorem C10_witness :
    createBatchHandler 5 [false] = Except.ok
      { httpStatus := 201, success := true, codesGenerated := 0,
        batchStatus := BatchStatus.generating } :=
  (C10_insert_failure_not_surfaced 5 [false] (by decide) (by decide)).2 (by decide)

/-! ## Uniqueness invariant machinery (C4) -/

theorem verifyMark_codes (t : CodesTable) (c : String) :
    (verifyMark t c).rows.map CodeRow.code = t.rows.map CodeRow.code := by
  unfold verifyMark
  rw [List.map_map]
  apply List.map_congr_left
  intro r _
  show CodeRow.code (if _ then _ else _) = r.code
  split <;> rfl

theorem distinct_insertChunk (t : CodesTable) (chunk : List CodeRow)
    (hd : distinctValues t) : distinctValues (insertChunk t chunk).1 := by
  unfold insertChunk
  split
  · next h =>
    unfold distinctValues at *
    show ((t.rows ++ chunk).map CodeRow.code).Nodup
    rw [List.map_append]
    refine List.Nodup.append hd h.1 ?_
    intro a ha hb
    rcases List.mem_map.mp hb with ⟨r, hr, hra⟩
    exact h.2 r hr (hra ▸ ha)
  · exact hd

/-- Claim C4: starting from any codes table with pairwise-distinct
values, every state reachable by any sequence of chunked inserts
(batch creation, background generation, scheduler runs) and
verification updates keeps the code values pairwise distinct — the
storage-layer constraint codes_code_unique rejects any insert
statement that would collide, and verification updates never change a
value. -/
theorem C4_global_uniqueness (t : CodesTable) (ops : List DbOp)
    (hd : distinctValues t) : distinctValues (runOps t ops) := by
  induction ops generalizing t with
  | nil => exact hd
  | cons op rest ih =>
    show distinctValues (runOps (applyOp t op) rest)
    refine ih _ ?_
    cases op with
    | insertOp chunk => exact distinct_insertChunk t chunk hd
    | verifyOp c =>
      show ((verifyMark t c).rows.map CodeRow.code).Nodup
      rw [verifyMark_codes]
      exact hd

/-- Claim C4, witness: an empty table taken through two inserts (one
accepted, one rejected by the constraint) and a verification. -/
theorem C4_witness :
    distinctValues { rows := [] } ∧
    distinctValues (runOps { rows := [] }
      [DbOp.insertOp [⟨"AAAA", 1, 1, CodeStatus.active⟩, ⟨"BBBB", 1, 1, CodeStatus.active⟩],
        DbOp.insertOp [⟨"AAAA", 2, 2, CodeStatus.active⟩],
        DbOp.verifyOp "AAAA"]) :=
  ⟨by decide,
    C4_global_uniqueness { rows := [] }
      [DbOp.insertOp [⟨"AAAA", 1, 1, CodeStatus.active⟩, ⟨"BBBB", 1, 1, CodeStatus.active⟩],
        DbOp.insertOp [⟨"AAAA", 2, 2, CodeStatus.active⟩],
        DbOp.verifyOp "AAAA"] (by decide)⟩

/-! ## Batch progress invariant machinery (C7, C8) -/

theorem batch_invariant_create (qty : Nat) (ok : List Bool) :
    (createBatchSync qty ok).codesGenerated ≤ (createBatchSync qty ok).quantity ∧
    ((createBatchSync qty ok).status = BatchStatus.complete ↔
      (createBatchSync qty ok).codesGenerated = (createBatchSync qty ok).quantity) := by
  unfold createBatchSync
  dsimp only
  have hle : insertedCount (chunkSizes (min qty SYNC_LIMIT)) ok ≤ qty := by
    have h1 := insertedCount_le (chunkSizes (min qty SYNC_LIMIT)) ok
    rw [sum_chunkSizes] at h1
    omega
  refine ⟨hle, ?_⟩
  split
  · next h => simp; omega
  · next h => simp; omega

theorem batch_invariant_tick (b : Batch) (ok : List Bool)
    (hle : b.codesGenerated ≤ b.quantity)
    (hiff : b.status = BatchStatus.complete ↔ b.codesGenerated = b.quantity) :
    (schedulerTick b ok).codesGenerated ≤ (schedulerTick b ok).quantity ∧
    ((schedulerTick b ok).status = BatchStatus.complete ↔
      (schedulerTick b ok).codesGenerated = (schedulerTick b ok).quantity) := by
  unfold schedulerTick schedulerTickCount
  split
  · next h =>
    have hins : insertedCount (chunkSizes (min CODES_PER_RUN (b.quantity - b.codesGenerated))) ok ≤
        b.quantity - b.codesGenerated := by
      have h1 := insertedCount_le
        (chunkSizes (min CODES_PER_RUN (b.quantity - b.codesGenerated))) ok
      rw [sum_chunkSizes] at h1
      omega
    dsimp only
    constructor
    · omega
    · split
      · next h2 => simp; omega
      · next h2 => simp; omega
  · exact ⟨hle, hiff⟩

theorem tick_monotone (b : Batch) (ok : List Bool) :
    b.codesGenerated ≤ (schedulerTick b ok).codesGenerated := by
  unfold schedulerTick schedulerTickCount
  split
  · simp
  · exact le_refl _

/-- Claim C7: for every batch state reachable through a create-batch
invocation followed by any sequence of scheduler passes,
codes_generated never exceeds quantity and the status is "complete"
exactly when codes_generated equals quantity; moreover each scheduler
pass leaves codes_generated non-decreasing. -/
theorem C7_progress_invariant (b : Batch) (hb : ReachableBatch b) :
    (b.codesGenerated ≤ b.quantity ∧
      (b.status = BatchStatus.complete ↔ b.codesGenerated = b.quantity)) ∧
    (∀ ok, b.codesGenerated ≤ (schedulerTick b ok).codesGenerated) := by
  induction hb with
  | created qty ok h1 h2 =>
    exact ⟨batch_invariant_create qty ok, fun ok2 => tick_monotone _ ok2⟩
  | ticked b0 ok h ih =>
    exact ⟨batch_invariant_tick b0 ok ih.1.1 ih.1.2, fun ok2 => tick_monotone _ ok2⟩

/-- Claim C7, witness: the batch created with quantity 5 whose single
chunk write succeeded. -/
theorem C7_witness :
    ((createBatchSync 5 [true]).codesGenerated ≤ (createBatchSync 5 [true]).quantity ∧
      ((createBatchSync 5 [true]).status = BatchStatus.complete ↔
        (createBatchSync 5 [true]).codesGenerated = (createBatchSync 5 [true]).quantity)) ∧
    (∀ ok, (createBatchSync 5 [true]).codesGenerated ≤
      (schedulerTick (createBatchSync 5 [true]) ok).codesGenerated) :=
  C7_progress_invariant (createBatchSync 5 [true])
    (ReachableBatch.created 5 [true] (by decide) (by decide))

theorem tick_complete_noop (b : Batch) (ok : List Bool)
    (h : b.status = BatchStatus.complete) : schedulerTickCount b ok = (b, 0) := by
  unfold schedulerTickCount
  rw [if_neg]
  simp [h]

/-- Claim C8: once a batch is "complete", any number of further
scheduler passes select it no more (the scan filters on status
"generating"), insert zero codes, and leave the batch record — in
particular codes_generated and status — unchanged. -/
theorem C8_idempotent_after_complete (b : Batch) (oks : List (List Bool))
    (h : b.status = BatchStatus.complete) :
    runTicks b oks = b ∧ ticksInserted b oks = 0 := by
  induction oks with
  | nil => exact ⟨rfl, rfl⟩
  | cons ok rest ih =>
    have hstep : schedulerTickCount b ok = (b, 0) := tick_complete_noop b ok h
    have htick : schedulerTick b ok = b := by
      unfold schedulerTick
      rw [hstep]
    constructor
    · show runTicks (schedulerTick b ok) rest = b
      rw [htick]
      exact ih.1
    · show (schedulerTickCount b ok).2 + ticksInserted (schedulerTick b ok) rest = 0
      rw [hstep, htick]
      simpa using ih.2

/-- Claim C8, witness: a completed batch of 5 run through two extra
scheduler passes. -/
theorem C8_witness :
    runTicks { quantity := 5, codesGenerated := 5, status := BatchStatus.complete }
        [[true], [false]] =
      { quantity := 5, codesGenerated := 5, status := BatchStatus.complete } ∧
    ticksInserted { quantity := 5, codesGenerated := 5, status := BatchStatus.complete }
        [[true], [false]] = 0 :=
  C8_idempotent_after_complete
    { quantity := 5, codesGenerated := 5, status := BatchStatus.complete }
    [[true], [false]] rfl

/-! ## Concurrency invariant lemmas (C2) -/

theorem get_set_ite {α : Type} (l : List α) (i : Nat) (b : α) (j : Fin (l.set i b).length) :
    (l.set i b).get j = if i = j.1 then b else l.get ⟨j.1, by simpa using j.2⟩ := by
  simp [List.get_eq_getElem, List.getElem_set]

theorem sysStep_length (s : ConcState) (i : Nat) :
    (sysStep s i).calls.length = s.calls.length := by
  unfold sysStep
  split <;> simp

theorem runSched_length (s : ConcState) (sched : List Nat) :
    (runSched s sched).calls.length = s.calls.length := by
  induction sched generalizing s with
  | nil => rfl
  | cons a t ih =>
    show (runSched (sysStep s a) t).calls.length = _
    rw [ih, sysStep_length]

theorem concInv_init (n : Nat) : ConcInv (initConc n) := by
  refine ⟨Or.inl rfl, ?_, ?_, ?_, ?_, ?_⟩
  · intro _ j
    have : (initConc n).calls.get j =
        { phase := Phase.ready, sawVerified := false, won := false, outcome := none } := by
      simp [initConc, List.get_eq_getElem, List.getElem_replicate]
    rw [this]
    exact ⟨by decide, rfl, rfl⟩
  · intro h
    simp [initConc] at h
  · intro j hw
    have : (initConc n).calls.get j =
        { phase := Phase.ready, sawVerified := false, won := false, outcome := none } := by
      simp [initConc, List.get_eq_getElem, List.getElem_replicate]
    rw [this] at hw
    exact absurd hw (by decide)
  · intro j hph
    have : (initConc n).calls.get j =
        { phase := Phase.ready, sawVerified := false, won := false, outcome := none } := by
      simp [initConc, List.get_eq_getElem, List.getElem_replicate]
    rw [this] at hph
    exact absurd hph (by decide)
  · intro j _
    have : (initConc n).calls.get j =
        { phase := Phase.ready, sawVerified := false, won := false, outcome := none } := by
      simp [initConc, List.get_eq_getElem, List.getElem_replicate]
    rw [this]
    exact ⟨rfl, rfl⟩

theorem concInv_step (s : ConcState) (i : Nat) (h : ConcInv s) : ConcInv (sysStep s i) := by
  obtain ⟨hA, hB, hC, hD, hE, hF⟩ := h
  unfold sysStep
  split
  case isFalse => exact ⟨hA, hB, hC, hD, hE, hF⟩
  case isTrue hi =>
  dsimp only
  cases hph : (s.calls.get ⟨i, hi⟩).phase with
  | ready =>
    have hstep : stepCall s.stored (s.calls.get ⟨i, hi⟩) =
        (s.stored, { s.calls.get ⟨i, hi⟩ with
          phase := Phase.readDone
          sawVerified := decide (s.stored = CodeStatus.verified) }) := by
      unfold stepCall
      rw [hph]
    rw [hstep]
    dsimp only
    refine ⟨hA, ?_, ?_, ?_, ?_, ?_⟩
    · -- B: stored still active
      intro hact j
      rw [get_set_ite]
      by_cases hij : i = j.1
      · rw [if_pos hij]
        refine ⟨by simp, by rw [hact]; rfl, ?_⟩
        show (s.calls.get ⟨i, hi⟩).won = false
        exact (hB hact ⟨i, hi⟩).2.2
      · rw [if_neg hij]
        exact hB hact ⟨j.1, by simpa using j.2⟩
    · -- C: stored verified keeps its unique winner
      intro hver
      obtain ⟨j0, hw0, huniq⟩ := hC hver
      have hcwon : (s.calls.get ⟨i, hi⟩).won = false := by
        refine (hF ⟨i, hi⟩ ?_).1
        rw [hph]
        decide
      have hj0i : j0.1 ≠ i := by
        intro hcon
        have : s.calls.get ⟨i, hi⟩ = s.calls.get j0 := by
          congr 1
          exact (Fin.ext hcon.symm : (⟨i, hi⟩ : Fin s.calls.length) = j0)
        rw [← this] at hw0
        rw [hcwon] at hw0
        cases hw0
      refine ⟨⟨j0.1, by simp only [List.length_set]; exact j0.2⟩, ?_, ?_⟩
      · rw [get_set_ite, if_neg (by simp only [Fin.val_mk]; exact hj0i.symm)]
        exact hw0
      · intro k hk
        rw [get_set_ite] at hk
        by_cases hik : i = k.1
        · rw [if_pos hik] at hk
          have : (s.calls.get ⟨i, hi⟩).won = true := hk
          rw [hcwon] at this
          cases this
        · rw [if_neg hik] at hk
          exact huniq ⟨k.1, by simpa using k.2⟩ hk
    · -- D: winners are finished success readers of active
      intro j hw
      rw [get_set_ite] at hw ⊢
      by_cases hij : i = j.1
      · rw [if_pos hij] at hw
        have : (s.calls.get ⟨i, hi⟩).won = true := hw
        have hcwon : (s.calls.get ⟨i, hi⟩).won = false := by
          refine (hF ⟨i, hi⟩ ?_).1
          rw [hph]
          decide
        rw [hcwon] at this
        cases this
      · rw [if_neg hij] at hw ⊢
        exact hD ⟨j.1, by simpa using j.2⟩ hw
    · -- E: finished calls carry their outcome
      intro j hfin
      rw [get_set_ite] at hfin ⊢
      by_cases hij : i = j.1
      · rw [if_pos hij] at hfin
        have : Phase.readDone = Phase.finished := hfin
        cases this
      · rw [if_neg hij] at hfin ⊢
        exact hE ⟨j.1, by simpa using j.2⟩ hfin
    · -- F: unfinished calls have not won, no outcome
      intro j hnfin
      rw [get_set_ite] at hnfin ⊢
      by_cases hij : i = j.1
      · rw [if_pos hij] at hnfin ⊢
        have hold := hF ⟨i, hi⟩ (by rw [hph]; decide)
        exact ⟨hold.1, hold.2⟩
      · rw [if_neg hij] at hnfin ⊢
        exact hF ⟨j.1, by simpa using j.2⟩ hnfin
  | readDone =>
    cases hsv : (s.calls.get ⟨i, hi⟩).sawVerified with
    | true =>
      have hstep : stepCall s.stored (s.calls.get ⟨i, hi⟩) =
          (s.stored, { s.calls.get ⟨i, hi⟩ with
            phase := Phase.finished
            outcome := some Outcome.duplicate }) := by
        unfold stepCall
        rw [hph]
        simp [hsv]
        exact hsv
      have hcF := hF ⟨i, hi⟩ (by rw [hph]; decide)
      rw [hstep]
      dsimp only
      refine ⟨hA, ?_, ?_, ?_, ?_, ?_⟩
      · intro hact
        exfalso
        have := (hB hact ⟨i, hi⟩).2.1
        rw [hsv] at this
        cases this
      · intro hver
        obtain ⟨j0, hw0, huniq⟩ := hC hver
        have hj0i : j0.1 ≠ i := by
          intro hcon
          have heq : (⟨i, hi⟩ : Fin s.calls.length) = j0 := Fin.ext hcon.symm
          rw [← heq] at hw0
          rw [hcF.1] at hw0
          cases hw0
        refine ⟨⟨j0.1, by simp only [List.length_set]; exact j0.2⟩, ?_, ?_⟩
        · rw [get_set_ite, if_neg (by simp only [Fin.val_mk]; exact hj0i.symm)]
          exact hw0
        · intro k hk
          rw [get_set_ite] at hk
          by_cases hik : i = k.1
          · rw [if_pos hik] at hk
            have : (s.calls.get ⟨i, hi⟩).won = true := hk
            rw [hcF.1] at this
            cases this
          · rw [if_neg hik] at hk
            exact huniq ⟨k.1, by simpa using k.2⟩ hk
      · intro j hw
        rw [get_set_ite] at hw ⊢
        by_cases hij : i = j.1
        · rw [if_pos hij] at hw
          have : (s.calls.get ⟨i, hi⟩).won = true := hw
          rw [hcF.1] at this
          cases this
        · rw [if_neg hij] at hw ⊢
          exact hD ⟨j.1, by simpa using j.2⟩ hw
      · intro j hfin
        rw [get_set_ite] at hfin ⊢
        by_cases hij : i = j.1
        · rw [if_pos hij]
          show some Outcome.duplicate = some
            (if (s.calls.get ⟨i, hi⟩).sawVerified = true then Outcome.duplicate
              else Outcome.success)
          rw [hsv]
          rfl
        · rw [if_neg hij] at hfin ⊢
          exact hE ⟨j.1, by simpa using j.2⟩ hfin
      · intro j hnfin
        rw [get_set_ite] at hnfin ⊢
        by_cases hij : i = j.1
        · rw [if_pos hij] at hnfin
          exact absurd rfl hnfin
        · rw [if_neg hij] at hnfin ⊢
          exact hF ⟨j.1, by simpa using j.2⟩ hnfin
    | false =>
      have hcF := hF ⟨i, hi⟩ (by rw [hph]; decide)
      rcases hA with hst | hst
      · -- stored still active: this call wins the conditional update
        have hstep : stepCall s.stored (s.calls.get ⟨i, hi⟩) =
            (CodeStatus.verified, { s.calls.get ⟨i, hi⟩ with
              phase := Phase.finished
              won := true
              outcome := some Outcome.success }) := by
          unfold stepCall
          rw [hph]
          simp [hsv, hst, condUpdate]
          exact hsv
        rw [hstep]
        dsimp only
        refine ⟨Or.inr rfl, ?_, ?_, ?_, ?_, ?_⟩
        · intro hact2
          simp at hact2
        · intro _
          refine ⟨⟨i, by simpa using hi⟩, ?_, ?_⟩
          · rw [get_set_ite, if_pos rfl]
          · intro k hk
            rw [get_set_ite] at hk
            by_cases hik : i = k.1
            · exact hik.symm
            · rw [if_neg hik] at hk
              have := (hB hst ⟨k.1, by simpa using k.2⟩).2.2
              rw [this] at hk
              cases hk
        · intro j hw
          rw [get_set_ite] at hw ⊢
          by_cases hij : i = j.1
          · rw [if_pos hij]
            exact ⟨rfl, hsv⟩
          · rw [if_neg hij] at hw
            have := (hB hst ⟨j.1, by simpa using j.2⟩).2.2
            rw [this] at hw
            cases hw
        · intro j hfin
          rw [get_set_ite] at hfin ⊢
          by_cases hij : i = j.1
          · rw [if_pos hij]
            show some Outcome.success = some
              (if (s.calls.get ⟨i, hi⟩).sawVerified = true then Outcome.duplicate
                else Outcome.success)
            rw [hsv]
            rfl
          · rw [if_neg hij] at hfin
            exact absurd hfin (hB hst ⟨j.1, by simpa using j.2⟩).1
        · intro j hnfin
          rw [get_set_ite] at hnfin ⊢
          by_cases hij : i = j.1
          · rw [if_pos hij] at hnfin
            exact absurd rfl hnfin
          · rw [if_neg hij] at hnfin ⊢
            exact hF ⟨j.1, by simpa using j.2⟩ hnfin
      · -- stored already verified: the conditional update affects no row
        have hstep : stepCall s.stored (s.calls.get ⟨i, hi⟩) =
            (CodeStatus.verified, { s.calls.get ⟨i, hi⟩ with
              phase := Phase.finished
              won := false
              outcome := some Outcome.success }) := by
          unfold stepCall
          rw [hph]
          simp [hsv, hst, condUpdate]
          exact hsv
        rw [hstep]
        dsimp only
        refine ⟨Or.inr rfl, ?_, ?_, ?_, ?_, ?_⟩
        · intro hact2
          simp at hact2
        · intro _
          obtain ⟨j0, hw0, huniq⟩ := hC hst
          have hj0i : j0.1 ≠ i := by
            intro hcon
            have heq : (⟨i, hi⟩ : Fin s.calls.length) = j0 := Fin.ext hcon.symm
            rw [← heq] at hw0
            rw [hcF.1] at hw0
            cases hw0
          refine ⟨⟨j0.1, by simp only [List.length_set]; exact j0.2⟩, ?_, ?_⟩
          · rw [get_set_ite, if_neg (by simp only [Fin.val_mk]; exact hj0i.symm)]
            exact hw0
          · intro k hk
            rw [get_set_ite] at hk
            by_cases hik : i = k.1
            · rw [if_pos hik] at hk
              cases hk
            · rw [if_neg hik] at hk
              exact huniq ⟨k.1, by simpa using k.2⟩ hk
        · intro j hw
          rw [get_set_ite] at hw ⊢
          by_cases hij : i = j.1
          · rw [if_pos hij] at hw
            cases hw
          · rw [if_neg hij] at hw ⊢
            exact hD ⟨j.1, by simpa using j.2⟩ hw
        · intro j hfin
          rw [get_set_ite] at hfin ⊢
          by_cases hij : i = j.1
          · rw [if_pos hij]
            show some Outcome.success = some
              (if (s.calls.get ⟨i, hi⟩).sawVerified = true then Outcome.duplicate
                else Outcome.success)
            rw [hsv]
            rfl
          · rw [if_neg hij] at hfin ⊢
            exact hE ⟨j.1, by simpa using j.2⟩ hfin
        · intro j hnfin
          rw [get_set_ite] at hnfin ⊢
          by_cases hij : i = j.1
          · rw [if_pos hij] at hnfin
            exact absurd rfl hnfin
          · rw [if_neg hij] at hnfin ⊢
            exact hF ⟨j.1, by simpa using j.2⟩ hnfin
  | finished =>
    have hstep : stepCall s.stored (s.calls.get ⟨i, hi⟩) =
        (s.stored, s.calls.get ⟨i, hi⟩) := by
      unfold stepCall
      rw [hph]
    rw [hstep]
    dsimp only
    refine ⟨hA, ?_, ?_, ?_, ?_, ?_⟩
    · intro hact j
      rw [get_set_ite]
      by_cases hij : i = j.1
      · rw [if_pos hij]
        exact hB hact ⟨i, hi⟩
      · rw [if_neg hij]
        exact hB hact ⟨j.1, by simpa using j.2⟩
    · intro hver
      obtain ⟨j0, hw0, huniq⟩ := hC hver
      refine ⟨⟨j0.1, by simp only [List.length_set]; exact j0.2⟩, ?_, ?_⟩
      · rw [get_set_ite]
        by_cases hij : i = j0.1
        · rw [if_pos (by simp only [Fin.val_mk]; exact hij)]
          have heq : (⟨i, hi⟩ : Fin s.calls.length) = j0 := Fin.ext hij
          rw [heq]
          exact hw0
        · rw [if_neg (by simpa using hij)]
          exact hw0
      · intro k hk
        rw [get_set_ite] at hk
        by_cases hik : i = k.1
        · rw [if_pos hik] at hk
          have h2 : i = j0.1 := huniq ⟨i, hi⟩ hk
          show k.1 = j0.1
          omega
        · rw [if_neg hik] at hk
          exact huniq ⟨k.1, by simpa using k.2⟩ hk
    · intro j hw
      rw [get_set_ite] at hw ⊢
      by_cases hij : i = j.1
      · rw [if_pos hij] at hw ⊢
        exact hD ⟨i, hi⟩ hw
      · rw [if_neg hij] at hw ⊢
        exact hD ⟨j.1, by simpa using j.2⟩ hw
    · intro j hfin
      rw [get_set_ite] at hfin ⊢
      by_cases hij : i = j.1
      · rw [if_pos hij] at hfin ⊢
        exact hE ⟨i, hi⟩ hfin
      · rw [if_neg hij] at hfin ⊢
        exact hE ⟨j.1, by simpa using j.2⟩ hfin
    · intro j hnfin
      rw [get_set_ite] at hnfin ⊢
      by_cases hij : i = j.1
      · rw [if_pos hij] at hnfin ⊢
        exact hF ⟨i, hi⟩ hnfin
      · rw [if_neg hij] at hnfin ⊢
        exact hF ⟨j.1, by simpa using j.2⟩ hnfin

theorem concInv_run (s : ConcState) (sched : List Nat) (h : ConcInv s) :
    ConcInv (runSched s sched) := by
  induction sched generalizing s with
  | nil => exact h
  | cons a t ih => exact ih _ (concInv_step s a h)

/-- Claim C2, counterexample.  The claim states that across N
concurrent verify calls on an Unused code exactly one call returns
Success and the other N-1 return Duplicate.  With two calls whose
lookups both happen before either conditional update (schedule
read-1, read-2, update-1, update-2), both calls return and log
Success: the handler never inspects the affected-row count, so the
race loser is not reclassified. -/
theorem C2_counterexample :
    (runSched (initConc 2) [0, 1, 0, 1]).stored = CodeStatus.verified ∧
    (runSched (initConc 2) [0, 1, 0, 1]).calls.map Call.outcome =
      [some Outcome.success, some Outcome.success] ∧
    ¬ (runSched (initConc 2) [0, 1, 0, 1]).calls.countP
        (fun c => c.outcome = some Outcome.success) = 1 := by
  decide

/-- Claim C2, amended.  For any number n of concurrent verify calls
on a code in Unused state and any interleaving of their lookup and
conditional-update events, once all calls have finished: the code ends
in Used state; exactly one call's conditional update affected a row;
every call's outcome (which it also logs) is Success exactly when its
lookup still saw the code Unused — so at least one call returns
Success, but under racy interleavings more than one may, and the
number of Duplicate outcomes can be less than n-1.  Had the outcome
been derived from the conditional update as in the backend workflow
executeVerificationWorkflow (wfOutcome), exactly one call would
have returned Success. -/
theorem C2_amended (n : Nat) (sched : List Nat) (hn : 1 ≤ n)
    (hfin : ∀ j : Fin (runSched (initConc n) sched).calls.length,
      ((runSched (initConc n) sched).calls.get j).phase = Phase.finished) :
    (runSched (initConc n) sched).stored = CodeStatus.verified ∧
    (∃ j : Fin (runSched (initConc n) sched).calls.length,
      ((runSched (initConc n) sched).calls.get j).won = true ∧
      ∀ k : Fin (runSched (initConc n) sched).calls.length,
        ((runSched (initConc n) sched).calls.get k).won = true → k.1 = j.1) ∧
    (∀ j : Fin (runSched (initConc n) sched).calls.length,
      ((runSched (initConc n) sched).calls.get j).outcome =
        some (if ((runSched (initConc n) sched).calls.get j).sawVerified then
          Outcome.duplicate else Outcome.success)) ∧
    (∃ j : Fin (runSched (initConc n) sched).calls.length,
      ((runSched (initConc n) sched).calls.get j).outcome = some Outcome.success) ∧
    (∃ j : Fin (runSched (initConc n) sched).calls.length,
      wfOutcome ((runSched (initConc n) sched).calls.get j) = Outcome.success ∧
      ∀ k : Fin (runSched (initConc n) sched).calls.length,
        wfOutcome ((runSched (initConc n) sched).calls.get k) = Outcome.success → k.1 = j.1) := by
  obtain ⟨hA, hB, hC, hD, hE, hF⟩ := concInv_run (initConc n) sched (concInv_init n)
  have hlen : (runSched (initConc n) sched).calls.length = n := by
    rw [runSched_length]
    simp [initConc]
  have hstored : (runSched (initConc n) sched).stored = CodeStatus.verified := by
    rcases hA with hst | hst
    · exfalso
      have h0 : (0 : Nat) < (runSched (initConc n) sched).calls.length := by omega
      exact (hB hst ⟨0, h0⟩).1 (hfin ⟨0, h0⟩)
    · exact hst
  obtain ⟨j0, hw0, huniq⟩ := hC hstored
  refine ⟨hstored, ⟨j0, hw0, huniq⟩, ?_, ?_, ?_⟩
  · intro j
    exact hE j (hfin j)
  · refine ⟨j0, ?_⟩
    have h1 := hE j0 (hfin j0)
    rw [(hD j0 hw0).2] at h1
    simpa using h1
  · refine ⟨j0, ?_, ?_⟩
    · have hsv0 := (hD j0 hw0).2
      unfold wfOutcome
      rw [hsv0, hw0]
      simp
    · intro k hk
      unfold wfOutcome at hk
      by_cases hsv : ((runSched (initConc n) sched).calls.get k).sawVerified = true
      · rw [hsv] at hk
        simp at hk
      · by_cases hw : ((runSched (initConc n) sched).calls.get k).won = true
        · exact huniq k hw
        · rw [Bool.not_eq_true] at hsv hw
          rw [hsv, hw] at hk
          simp at hk

/-- Claim C2, witness for the amended theorem: one call, run to
completion. -/
theorem C2_amended_witness :
    (runSched (initConc 1) [0, 0]).stored = CodeStatus.verified ∧
    (∃ j : Fin (runSched (initConc 1) [0, 0]).calls.length,
      ((runSched (initConc 1) [0, 0]).calls.get j).won = true ∧
      ∀ k : Fin (runSched (initConc 1) [0, 0]).calls.length,
        ((runSched (initConc 1) [0, 0]).calls.get k).won = true → k.1 = j.1) ∧
    (∀ j : Fin (runSched (initConc 1) [0, 0]).calls.length,
      ((runSched (initConc 1) [0, 0]).calls.get j).outcome =
        some (if ((runSched (initConc 1) [0, 0]).calls.get j).sawVerified then
          Outcome.duplicate else Outcome.success)) ∧
    (∃ j : Fin (runSched (initConc 1) [0, 0]).calls.length,
      ((runSched (initConc 1) [0, 0]).calls.get j).outcome = some Outcome.success) ∧
    (∃ j : Fin (runSched (initConc 1) [0, 0]).calls.length,
      wfOutcome ((runSched (initConc 1) [0, 0]).calls.get j) = Outcome.success ∧
      ∀ k : Fin (runSched (initConc 1) [0, 0]).calls.length,
        wfOutcome ((runSched (initConc 1) [0, 0]).calls.get k) = Outcome.success → k.1 = j.1) :=
  C2_amended 1 [0, 0] (by decide) (by decide)
